import Mathlib

/-!
Verification development for the attention-scoring pipeline and its dashboard.

The repository ships the React dashboard (`frontend/src/pages/Analysis.tsx`,
`frontend/src/App.tsx`) together with a README describing the scoring script
`attention_mvp.py` and its FastAPI host; the script and host themselves are not
part of the visible sources, so the pipeline components (FeatureExtractor,
Smoother, BlinkStateMachine, ScoreCombiner, TelemetryWriter/Store) are modelled
here from the specification's component contracts, while the dashboard
functions are embedded directly from the TypeScript source.

All real-valued quantities are modelled with exact rationals (ℚ).
-/

namespace Attention

/-- Modelled from the spec: `attention_mvp.py` is not in the visible sources.
`clamp(x, lo, hi)` as used by the ScoreCombiner (§4.4): the value `x` limited
to the closed interval `[lo, hi]`. -/
def clamp (x lo hi : ℚ) : ℚ :=
  max lo (min hi x)

/-- Modelled from the spec: `attention_mvp.py` is not in the visible sources.
ScoreCombiner (§4.4):
`score = clamp(100 · (w1·openness_norm + w2·gaze_alignment − w3·blink_penalty), 0, 100)`.
The weights are configuration constants, so they are parameters here. -/
def scoreCombiner (w1 w2 w3 opennessNorm gazeAlignment blinkPenalty : ℚ) : ℚ :=
  clamp (100 * (w1 * opennessNorm + w2 * gazeAlignment - w3 * blinkPenalty)) 0 100

/-- Modelled from the spec: `attention_mvp.py` is not in the visible sources.
One step of the exponential moving average (§4.2):
`smoothed_t = α·raw_t + (1−α)·smoothed_{t-1}`, with the first raw sample
seeding the state exactly (`smoothed_0 = raw_0`). The state is `none` before
the first sample. -/
def emaStep (alpha : ℚ) (st : Option ℚ) (raw : ℚ) : ℚ :=
  match st with
  | none => raw
  | some s => alpha * raw + (1 - alpha) * s

/-- Modelled from the spec: running the Smoother over a list of raw samples,
threading the EMA state. -/
def emaRun (alpha : ℚ) (st : Option ℚ) (raws : List ℚ) : Option ℚ :=
  raws.foldl (fun s r => some (emaStep alpha s r)) st

/-- Modelled from the spec: BlinkStateMachine states (§4.3). -/
inductive BState where
  | open'
  | closed
deriving DecidableEq, Repr

/-- Modelled from the spec: BlinkStateMachine state (§4.3): classifier state,
the streak of consecutive below-threshold (closed) frames, and the cumulative
blink count. -/
structure BlinkSM where
  state : BState
  streak : ℕ
  blinks : ℕ
deriving DecidableEq, Repr

/-- Modelled from the spec: initial BlinkStateMachine state — `Open`,
zero streak, zero blinks (§4.3). -/
def BlinkSM.init : BlinkSM :=
  ⟨BState.open', 0, 0⟩

/-- Modelled from the spec: one step of the BlinkStateMachine (§4.3 together
with §8 scenario 1). A below-threshold sample extends the closed streak and,
once the streak reaches `deb` consecutive frames (the debounce), the state is
`Closed`; shorter dips never reach `Closed`. An above-threshold sample while
`Closed` is the qualifying `Closed → Open` transition: the blink counter
increments by one and the streak resets to 0 (scenario 1 fixes that the blink
is counted on the first above-threshold frame after a debounced closure). An
above-threshold sample while `Open` only resets the streak. -/
def blinkStep (thresh : ℚ) (deb : ℕ) (s : BlinkSM) (x : ℚ) : BlinkSM :=
  if x < thresh then
    let k := s.streak + 1
    { state := if deb ≤ k then BState.closed else s.state
      streak := k
      blinks := s.blinks }
  else
    match s.state with
    | BState.closed => { state := BState.open', streak := 0, blinks := s.blinks + 1 }
    | BState.open' => { state := BState.open', streak := 0, blinks := s.blinks }

/-- Modelled from the spec: running the BlinkStateMachine over a sequence of
instantaneous openness samples. -/
def blinkRun (thresh : ℚ) (deb : ℕ) (s : BlinkSM) (xs : List ℚ) : BlinkSM :=
  xs.foldl (blinkStep thresh deb) s

/-- Modelled from the spec: per-frame feature measurements (§3, §4.1) —
the averaged eye openness and the normalized horizontal/vertical gaze offset. -/
structure Features where
  openness : ℚ
  gazeH : ℚ
  gazeV : ℚ
deriving DecidableEq, Repr

/-- Modelled from the spec: vertical distance between two landmark points. -/
def vgap (a b : ℚ × ℚ) : ℚ :=
  |a.2 - b.2|

/-- Modelled from the spec: horizontal distance between two landmark points. -/
def hdist (a b : ℚ × ℚ) : ℚ :=
  |a.1 - b.1|

/-- Modelled from the spec: degeneracy tolerance — an eye width at or below
this bound counts as "near-zero" (§4.1). -/
def widthEps : ℚ := 1 / 1000

/-- Modelled from the spec: the number of landmark points the extractor needs;
fewer points is "insufficient points" (§4.1). The fixed layout (indices 0–13)
is a modelling choice, since `attention_mvp.py` is not in the visible sources:
0,1 left-eye corners; 2,3 and 4,5 left eyelid pairs; 6,7 right-eye corners;
8,9 and 10,11 right eyelid pairs; 12 iris center; 13 eye-box center. -/
def requiredPoints : ℕ := 14

/-- Modelled from the spec: FeatureExtractor (§4.1). Aspect ratio per eye is
(sum of two vertical eyelid gaps) / (2 × horizontal eye width); the openness
measurement is the average of both eyes. Gaze offset is (iris center − eye-box
center) normalized by the eye-box half-extents and clamped to [-1, 1].
Absent landmarks, insufficient points, or near-zero eye width yield the
no-signal marker `none` instead of raising. -/
def extractFeatures (lm : Option (List (ℚ × ℚ))) : Option Features :=
  match lm with
  | none => none
  | some pts =>
    if pts.length < requiredPoints then none
    else
      let p := fun i => pts.getD i (0, 0)
      let lw := hdist (p 0) (p 1)
      let rw := hdist (p 6) (p 7)
      if lw ≤ widthEps || rw ≤ widthEps then none
      else
        let lear := (vgap (p 2) (p 3) + vgap (p 4) (p 5)) / (2 * lw)
        let rear := (vgap (p 8) (p 9) + vgap (p 10) (p 11)) / (2 * rw)
        let halfH := vgap (p 2) (p 3) / 2
        let gh := clamp (((p 12).1 - (p 13).1) / (lw / 2)) (-1) 1
        let gv := clamp (((p 12).2 - (p 13).2) / halfH) (-1) 1
        some ⟨(lear + rear) / 2, gh, gv⟩

/-- Modelled from the spec: `openness_norm` — smoothed openness rescaled into
[0,1] against a calibration ceiling (§4.4). -/
def opennessNorm (ceil v : ℚ) : ℚ :=
  clamp (v / ceil) 0 1

/-- Modelled from the spec: `gaze_alignment = 1 − min(1, sqrt(gaze_h² + gaze_v²))`
(§4.4); the irrational square root of the visible formula is modelled with the
rational square-root approximation `Rat.sqrt`. -/
def gazeAlignment (h v : ℚ) : ℚ :=
  1 - min 1 (Rat.sqrt (h ^ 2 + v ^ 2))

/-- Modelled from the spec: `blink_penalty` — a saturating function of the
current closed streak: grows linearly, then flattens at 1 (§4.4). -/
def blinkPenalty (streak : ℕ) : ℚ :=
  min 1 ((streak : ℚ) / 10)

/-- Modelled from the spec: pipeline configuration constants supplied at run
start (§6): smoothing factor, blink threshold and debounce, combiner weights,
and the openness calibration ceiling. -/
structure PipeConfig where
  alpha : ℚ
  earThresh : ℚ
  debounce : ℕ
  w1 : ℚ
  w2 : ℚ
  w3 : ℚ
  opennessCeil : ℚ
deriving DecidableEq, Repr

/-- Modelled from the spec: per-run pipeline state — EMA states for openness
and both gaze axes, the blink machine, and the last emitted score. -/
structure PipeState where
  smOpenness : Option ℚ
  smGazeH : Option ℚ
  smGazeV : Option ℚ
  blink : BlinkSM
  lastScore : ℚ
deriving DecidableEq, Repr

/-- Modelled from the spec: per-frame pipeline output — the emitted score and
the low-confidence tag (§4.4). -/
structure FrameOut where
  score : ℚ
  lowConfidence : Bool
deriving DecidableEq, Repr

/-- Modelled from the spec: one frame of the scoring pipeline (§2, §4, §7).
On a no-signal frame every smoothed value is held (`smoothed_t =
smoothed_{t-1}`), the frame is tagged low-confidence, and the last valid score
is emitted, so the output stream never has gaps; otherwise the smoothed
features, the blink machine, and the combined score are updated. The step is a
total function: per-frame errors never abort the run. -/
def pipeStep (cfg : PipeConfig) (st : PipeState) (lm : Option (List (ℚ × ℚ))) :
    PipeState × FrameOut :=
  match extractFeatures lm with
  | none => (st, ⟨st.lastScore, true⟩)
  | some f =>
    let so := emaStep cfg.alpha st.smOpenness f.openness
    let gh := emaStep cfg.alpha st.smGazeH f.gazeH
    let gv := emaStep cfg.alpha st.smGazeV f.gazeV
    let b := blinkStep cfg.earThresh cfg.debounce st.blink f.openness
    let sc := scoreCombiner cfg.w1 cfg.w2 cfg.w3
      (opennessNorm cfg.opennessCeil so) (gazeAlignment gh gv) (blinkPenalty b.streak)
    (⟨some so, some gh, some gv, b, sc⟩, ⟨sc, false⟩)

/-- Modelled from the spec: running the pipeline over a sequence of frames,
threading the state and collecting the per-frame outputs. -/
def pipeRun (cfg : PipeConfig) (st : PipeState) (lms : List (Option (List (ℚ × ℚ)))) :
    PipeState × List FrameOut :=
  match lms with
  | [] => (st, [])
  | lm :: rest =>
    let (st', out) := pipeStep cfg st lm
    let (stFin, outs) := pipeRun cfg st' rest
    (stFin, out :: outs)

/-- Modelled from the spec: TelemetryRecord — the immutable tuple
`{timestamp, score, ear, gaze_h, gaze_v}` appended once per logged frame (§3, §6). -/
structure TRec where
  ts : ℕ
  score : ℚ
  ear : ℚ
  gazeH : ℚ
  gazeV : ℚ
deriving DecidableEq, Repr

/-- Modelled from the spec: the per-frame measurements the writer logs. -/
structure FramePayload where
  score : ℚ
  ear : ℚ
  gazeH : ℚ
  gazeV : ℚ
deriving DecidableEq, Repr

/-- Modelled from the spec: TelemetryWriter state for the active run — the
append-only record sequence and the run-local frame clock that stamps each
record with a fresh, strictly larger timestamp (§4.5, §5). -/
structure WriterState where
  log : List TRec
  clock : ℕ
deriving DecidableEq, Repr

/-- Modelled from the spec: writer state at the start of a run. -/
def WriterState.init : WriterState :=
  ⟨[], 0⟩

/-- Modelled from the spec: logging one frame appends exactly one record,
stamped with the current clock, and advances the clock (§4.5, §5). -/
def writeFrame (w : WriterState) (p : FramePayload) : WriterState :=
  { log := w.log ++ [⟨w.clock, p.score, p.ear, p.gazeH, p.gazeV⟩]
    clock := w.clock + 1 }

/-- Modelled from the spec: logging a sequence of frames. -/
def writeFrames (w : WriterState) (ps : List FramePayload) : WriterState :=
  ps.foldl writeFrame w

/-- Modelled from the spec: the "latest" view of a record sequence — the most
recently appended record, or `none` when no record exists (§4.5). -/
def latestOfLog (l : List TRec) : Option TRec :=
  l.getLast?

/-- Modelled from the spec: Run metadata `{id, title, start, isOnline,
created_at}` — immutable once created (§3). -/
structure Run where
  id : String
  title : String
  start : String
  isOnline : Bool
  createdAt : ℕ
deriving DecidableEq, Repr

/-- Modelled from the spec: TelemetryStore — the run registry in creation
order and the per-run record sequences (§4.5). -/
structure Store where
  registry : List Run
  logs : List (String × List TRec)
deriving DecidableEq, Repr

/-- Modelled from the spec: looking up the record sequence of a run id;
`none` for an unknown run id. -/
def findLog (st : Store) (rid : String) : Option (List TRec) :=
  (st.logs.find? (fun e => e.1 == rid)).map (fun e => e.2)

/-- Modelled from the spec: the "latest" query (§4.5, §7) — a total function
returning the most recently appended record of the run, or the explicit empty
result `none` on a run with zero records or an unknown run id; it never
raises. -/
def latestQuery (st : Store) (rid : String) : Option TRec :=
  match findLog st rid with
  | none => none
  | some l => latestOfLog l

/-- Modelled from the spec: the run-trigger request `{id, title, start,
isOnline}` posted by the UI (§6; `App.tsx` `analyzeEvent` supplies exactly
these fields). -/
structure RunRequest where
  id : String
  title : String
  start : String
  isOnline : Bool
deriving DecidableEq, Repr

/-- Modelled from the spec: startup environment for a run — whether the
camera/video source can be opened and whether the landmark detector
initializes (§7). -/
structure HostEnv where
  cameraOk : Bool
  detectorOk : Bool
deriving DecidableEq, Repr

/-- Modelled from the spec: the status reported to the caller of the run
trigger (§6; the dashboard branches on `status ≠ ok` with a message). -/
inductive TriggerStatus where
  | ok
  | error (msg : String)
deriving DecidableEq, Repr

/-- Modelled from the spec: the run trigger (§6, §7). On a startup failure —
camera unavailable or detector initialization failure — the failure is
reported to the caller and the store is returned unchanged: the run never
starts and no registry entry is added. On success the run is registered with
an empty record sequence. -/
def runTrigger (env : HostEnv) (clock : ℕ) (st : Store) (req : RunRequest) :
    TriggerStatus × Store :=
  if env.cameraOk = false then
    (TriggerStatus.error "camera unavailable", st)
  else if env.detectorOk = false then
    (TriggerStatus.error "detector initialization failed", st)
  else
    (TriggerStatus.ok,
      { registry := st.registry ++ [⟨req.id, req.title, req.start, req.isOnline, clock⟩]
        logs := st.logs ++ [(req.id, [])] })

/-- Modelled from the spec: a record under construction — each field is
written separately by the writer, so a slot holds `none` for every field not
yet written (§5, §9 append-then-publish). -/
structure RecDraft where
  ts : Option ℕ
  score : Option ℚ
  ear : Option ℚ
  gazeH : Option ℚ
  gazeV : Option ℚ
deriving DecidableEq, Repr

/-- Modelled from the spec: a freshly staged slot with no field written. -/
def RecDraft.blank : RecDraft :=
  ⟨none, none, none, none, none⟩

/-- Modelled from the spec: a slot holding a fully written record. -/
def RecDraft.ofRec (r : TRec) : RecDraft :=
  ⟨some r.ts, some r.score, some r.ear, some r.gazeH, some r.gazeV⟩

/-- Modelled from the spec: a slot is complete when every field has been
written; a reader observing an incomplete slot would be a torn read (§8). -/
def RecDraft.isComplete (d : RecDraft) : Bool :=
  d.ts.isSome && d.score.isSome && d.ear.isSome && d.gazeH.isSome && d.gazeV.isSome

/-- Modelled from the spec: the shared published log — the slot sequence plus
the "last visible index": readers only see slots below `visible` (§5, §9). -/
structure PubLog where
  slots : List RecDraft
  visible : ℕ
deriving DecidableEq, Repr

/-- Modelled from the spec: the shared log at the start of a run. -/
def PubLog.init : PubLog :=
  ⟨[], 0⟩

/-- Modelled from the spec: one writer micro-operation — staging a fresh slot,
writing one field of the staged slot, or publishing (atomically advancing the
visible index to cover every staged slot) (§5, §9). -/
inductive WriteOp where
  | stage
  | setTs (v : ℕ)
  | setScore (v : ℚ)
  | setEar (v : ℚ)
  | setGazeH (v : ℚ)
  | setGazeV (v : ℚ)
  | publish
deriving DecidableEq, Repr

/-- Modelled from the spec: updating the last (staged) slot of the sequence. -/
def setLast (l : List RecDraft) (f : RecDraft → RecDraft) : List RecDraft :=
  match l with
  | [] => []
  | [d] => [f d]
  | d :: rest => d :: setLast rest f

/-- Modelled from the spec: effect of one writer micro-operation on the
shared log. Field writes touch only the staged (last) slot; `publish` only
moves the visible index (§5, §9). -/
def applyOp (b : PubLog) (op : WriteOp) : PubLog :=
  match op with
  | WriteOp.stage => { b with slots := b.slots ++ [RecDraft.blank] }
  | WriteOp.setTs v => { b with slots := setLast b.slots (fun d => { d with ts := some v }) }
  | WriteOp.setScore v => { b with slots := setLast b.slots (fun d => { d with score := some v }) }
  | WriteOp.setEar v => { b with slots := setLast b.slots (fun d => { d with ear := some v }) }
  | WriteOp.setGazeH v => { b with slots := setLast b.slots (fun d => { d with gazeH := some v }) }
  | WriteOp.setGazeV v => { b with slots := setLast b.slots (fun d => { d with gazeV := some v }) }
  | WriteOp.publish => { b with visible := b.slots.length }

/-- Modelled from the spec: running a sequence of writer micro-operations. -/
def applyOps (b : PubLog) (ops : List WriteOp) : PubLog :=
  ops.foldl applyOp b

/-- Modelled from the spec: the writer's program order for appending one
record — stage a slot, write every field, then publish (§5, §9). -/
def recOps (r : TRec) : List WriteOp :=
  [WriteOp.stage, WriteOp.setTs r.ts, WriteOp.setScore r.score, WriteOp.setEar r.ear,
    WriteOp.setGazeH r.gazeH, WriteOp.setGazeV r.gazeV, WriteOp.publish]

/-- Modelled from the spec: the writer's full micro-operation trace for a
sequence of appended records. -/
def writerOps (rs : List TRec) : List WriteOp :=
  (rs.map recOps).flatten

/-- Modelled from the spec: a concurrent reader's "latest" read — the last
slot below the visible index, or `none` when nothing is visible; readers
never look past `visible` (§5, §9). -/
def readLatest (b : PubLog) : Option RecDraft :=
  if b.visible = 0 then none else b.slots[b.visible - 1]?

end Attention

namespace Analysis

/-- JavaScript number values as the dashboard sees them: finite, NaN, or the
two infinities. The `n` parser's finiteness filter distinguishes exactly
these cases. -/
inductive JNum where
  | fin (q : ℚ)
  | nan
  | inf
  | ninf
deriving DecidableEq, Repr

/-- Dynamic JavaScript values that can reach the dashboard's numeric parser
`n` (`Analysis.tsx`): `null`, `undefined`, numbers, strings, booleans. -/
inductive JSVal where
  | jnull
  | undef
  | num (x : JNum)
  | str (s : String)
  | bool (b : Bool)
deriving DecidableEq, Repr

/-- The JavaScript `String(v)` conversion for the values of `JSVal`. For a
finite number the decimal rendering is abstracted by Lean's rational
rendering; the special values render as in JavaScript. -/
def jsToString : JSVal → String
  | JSVal.jnull => "null"
  | JSVal.undef => "undefined"
  | JSVal.num (JNum.fin q) => toString q
  | JSVal.num JNum.nan => "NaN"
  | JSVal.num JNum.inf => "Infinity"
  | JSVal.num JNum.ninf => "-Infinity"
  | JSVal.str s => s
  | JSVal.bool true => "true"
  | JSVal.bool false => "false"

/-- The JavaScript `v.trim()` builtin modelled over the character list:
leading and trailing whitespace removed. -/
def jsTrim (s : String) : String :=
  String.mk (((s.toList.dropWhile Char.isWhitespace).reverse.dropWhile Char.isWhitespace).reverse)

/-- The JavaScript `c.toLowerCase()` builtin on one ASCII character. -/
def jsCharLower (c : Char) : Char :=
  if c.isUpper then Char.ofNat (c.toNat + 32) else c

/-- The JavaScript `v.toLowerCase()` builtin modelled over the character
list. -/
def jsLower (s : String) : String :=
  String.mk (s.toList.map jsCharLower)

/-- Value of a list of decimal digit characters. -/
def digitsVal (cs : List Char) : ℕ :=
  cs.foldl (fun a c => 10 * a + (c.toNat - 48)) 0

/-- Syntactic scan result of the JavaScript `parseFloat` builtin: no number
recognized, a signed infinity, or a signed decimal with integer value,
fraction value and fraction length. -/
inductive ScanResult where
  | nan
  | infinite (neg : Bool)
  | finite (neg : Bool) (intVal : ℕ) (fracVal : ℕ) (fracLen : ℕ)
deriving DecidableEq, Repr

/-- Syntactic scan of the JavaScript `parseFloat` builtin on the fragment the
dashboard can receive: leading whitespace is skipped, then an optional sign
followed by `Infinity` or by decimal digits with an optional fraction part;
anything else (including the empty string) scans to `nan`. Exponent notation
is omitted from the model; no dashboard input uses it. -/
def scanFloat (s : String) : ScanResult :=
  let cs := s.toList.dropWhile Char.isWhitespace
  let neg : Bool := match cs with
    | '-' :: _ => true
    | _ => false
  let cs1 := match cs with
    | '-' :: rest => rest
    | '+' :: rest => rest
    | _ => cs
  if cs1.take 8 = "Infinity".toList then
    ScanResult.infinite neg
  else
    let intPart := cs1.takeWhile Char.isDigit
    let rest1 := cs1.dropWhile Char.isDigit
    let fracPart := match rest1 with
      | '.' :: r => r.takeWhile Char.isDigit
      | _ => []
    if intPart = [] && fracPart = [] then ScanResult.nan
    else ScanResult.finite neg (digitsVal intPart) (digitsVal fracPart) fracPart.length

/-- Numeric value of a scan result, as a JavaScript number. -/
def jnumOfScan : ScanResult → JNum
  | ScanResult.nan => JNum.nan
  | ScanResult.infinite false => JNum.inf
  | ScanResult.infinite true => JNum.ninf
  | ScanResult.finite neg i f l =>
    JNum.fin ((if neg then -1 else 1) * ((i : ℚ) + (f : ℚ) / 10 ^ l))

/-- The JavaScript `parseFloat` builtin: the numeric value of the scan. -/
def parseFloatJS (s : String) : JNum :=
  jnumOfScan (scanFloat s)

/-- `Number.isFinite` on the modelled JavaScript numbers. -/
def JNum.isFinite : JNum → Bool
  | JNum.fin _ => true
  | _ => false

/-- The dashboard's numeric parser `n` (`Analysis.tsx` lines 37–43): `null`
and `undefined` fall back to the default `d`; the trimmed, lower-cased string
forms `""`, `"null"`, `"nan"` fall back to `d`; otherwise the `parseFloat`
result is returned when finite, and `d` when not. -/
def n (v : JSVal) (d : ℚ) : ℚ :=
  match v with
  | JSVal.jnull => d
  | JSVal.undef => d
  | _ =>
    let s := jsLower (jsTrim (jsToString v))
    if s = "" || s = "null" || s = "nan" then d
    else
      match parseFloatJS (jsToString v) with
      | JNum.fin p => p
      | _ => d

/-- `Analysis.tsx` `LatestRow`: the latest telemetry row as served to the
dashboard — every field a string. -/
structure LatestRow where
  ts : String
  score : String
  ear : String
  gazeH : String
  gazeV : String
deriving DecidableEq, Repr

/-- `Analysis.tsx` `LatestResp`: the `/logs/latest` response — `ok` with an
optional row, or `error` with a message. -/
inductive LatestResp where
  | ok (data : Option LatestRow)
  | error (msg : String)
deriving DecidableEq, Repr

/-- Dashboard polling state (`Analysis.tsx`): the score history (at most the
10 most recent samples) and the timestamp of the last appended sample
(`lastTsRef`). -/
structure DashState where
  history : List ℚ
  lastTs : Option String
deriving DecidableEq, Repr

/-- Dashboard state at mount: empty history, no timestamp seen. -/
def DashState.init : DashState :=
  ⟨[], none⟩

/-- `Analysis.tsx` lines 87–91: push a score onto the history; when the
result exceeds 10 entries the oldest (`shift()`) is dropped. -/
def pushHistory (prev : List ℚ) (s : ℚ) : List ℚ :=
  let next := prev ++ [s]
  if 10 < next.length then next.drop 1 else next

/-- `Analysis.tsx` `tick` (lines 76–97): one polling step. A failed fetch or
a non-`ok`/dataless response (modelled by `none` or the other shapes) leaves
the state unchanged; a row whose `ts` equals the previously seen timestamp is
skipped; otherwise its parsed score is pushed and the timestamp recorded. -/
def tick (resp : Option LatestResp) (st : DashState) : DashState :=
  match resp with
  | some (LatestResp.ok (some d)) =>
    if st.lastTs = some d.ts then st
    else
      { history := pushHistory st.history (n (JSVal.str d.score) 0)
        lastTs := some d.ts }
  | _ => st

/-- Polling loop: folding `tick` over a sequence of responses. -/
def tickRun (resps : List (Option LatestResp)) (st : DashState) : DashState :=
  resps.foldl (fun s r => tick r s) st

/-- `Analysis.tsx` `avgScore` (lines 46–50): the arithmetic mean of the
history, 0 when the history is empty. -/
def avgScore (h : List ℚ) : ℚ :=
  if h.length = 0 then 0 else h.sum / h.length

end Analysis

namespace Attention

/-- C1: for every weight setting and every openness, gaze-alignment and
blink-penalty input — including adversarial combinations whose pre-clamp value
lies above 100 or below 0 — the AttentionScore produced by the ScoreCombiner
lies in the closed interval [0, 100]. -/
theorem scoreCombiner_bounded (w1 w2 w3 opn ga bp : ℚ) :
    0 ≤ scoreCombiner w1 w2 w3 opn ga bp ∧ scoreCombiner w1 w2 w3 opn ga bp ≤ 100 := by
  unfold scoreCombiner clamp
  refine ⟨le_max_left _ _, max_le (by norm_num) ?_⟩
  exact min_le_left _ _

/-- The EMA map has every constant stream value as a fixed point. -/
theorem emaStep_fixed (alpha v : ℚ) : emaStep alpha (some v) v = v := by
  simp only [emaStep]
  ring

/-- Folding the EMA over a constant stream keeps the state at that value. -/
theorem emaRun_const (alpha v : ℚ) :
    ∀ k : ℕ, emaRun alpha (some v) (List.replicate k v) = some v := by
  intro k
  induction k with
  | zero => rfl
  | succ m ih =>
    rw [List.replicate_succ]
    show emaRun alpha (some (emaStep alpha (some v) v)) (List.replicate m v) = some v
    rw [emaStep_fixed]
    exact ih

/-- C3: the Smoother's first output equals the first raw sample exactly
(`smoothed_0 = raw_0`, no warm-up bias), and for every α in (0,1] a constant
raw stream of value v is a fixed point: seeded at v, the smoothed value stays
exactly v on every subsequent frame. -/
theorem smoother_seed_fixed_point :
    (∀ alpha r : ℚ, emaStep alpha none r = r) ∧
    (∀ (alpha v : ℚ) (k : ℕ), 0 < alpha → alpha ≤ 1 →
      emaStep alpha (some v) v = v ∧
        emaRun alpha (some v) (List.replicate k v) = some v) := by
  refine ⟨fun _ _ => rfl, fun alpha v k _ _ => ⟨emaStep_fixed alpha v, emaRun_const alpha v k⟩⟩

/-- C3 witness: with α = 0.2 the Smoother seeds at the first sample 0.25 and a
50-frame constant stream of 0.25 stays exactly 0.25. -/
theorem smoother_seed_fixed_point_witness :
    emaStep (1/5) none (1/4) = 1/4 ∧
      emaRun (1/5) (some (1/4)) (List.replicate 50 (1/4)) = some (1/4) :=
  ⟨smoother_seed_fixed_point.1 (1/5) (1/4),
    (smoother_seed_fixed_point.2 (1/5) (1/4) 50 (by norm_num) (by norm_num)).2⟩

end Attention

namespace Attention

/-- Exact effect of one blink step on the cumulative counter: it increments by
one exactly on a `Closed → Open` transition (above-threshold sample while
`Closed`) and is unchanged otherwise. -/
theorem blinkStep_blinks (thresh : ℚ) (deb : ℕ) (s : BlinkSM) (x : ℚ) :
    (blinkStep thresh deb s x).blinks =
      if s.state = BState.closed ∧ ¬ x < thresh then s.blinks + 1 else s.blinks := by
  by_cases hx : x < thresh
  · simp [blinkStep, hx]
  · cases hs : s.state <;> simp [blinkStep, hx, hs]

/-- The debounce invariant is preserved: whenever the machine sits in
`Closed`, the closed streak has reached the debounce length. -/
theorem blinkStep_debounced (thresh : ℚ) (deb : ℕ) (s : BlinkSM) (x : ℚ)
    (h : s.state = BState.closed → deb ≤ s.streak) :
    (blinkStep thresh deb s x).state = BState.closed →
      deb ≤ (blinkStep thresh deb s x).streak := by
  intro hc
  by_cases hx : x < thresh
  · simp only [blinkStep, if_pos hx] at hc ⊢
    by_cases hd : deb ≤ s.streak + 1
    · exact hd
    · simp only [if_neg hd] at hc
      exact le_trans (h hc) (Nat.le_succ _)
  · cases hs : s.state <;> simp [blinkStep, hx, hs] at hc

/-- A run of below-threshold samples shorter than the debounce window leaves
the machine `Open` and only advances the streak. -/
theorem blinkRun_short_low (thresh low : ℚ) (deb : ℕ) (hlow : low < thresh) :
    ∀ (k c b : ℕ), c + k < deb →
      blinkRun thresh deb ⟨BState.open', c, b⟩ (List.replicate k low) =
        ⟨BState.open', c + k, b⟩ := by
  intro k
  induction k with
  | zero => intro c b _; rfl
  | succ m ih =>
    intro c b hck
    rw [List.replicate_succ]
    show blinkRun thresh deb (blinkStep thresh deb ⟨BState.open', c, b⟩ low)
      (List.replicate m low) = _
    have hd : ¬ deb ≤ c + 1 := by omega
    have hstep : blinkStep thresh deb ⟨BState.open', c, b⟩ low =
        ⟨BState.open', c + 1, b⟩ := by
      simp [blinkStep, hlow, hd]
    rw [hstep]
    have := ih (c + 1) b (by omega)
    rw [this]
    congr 1
    omega

/-- A run of above-threshold samples starting from `Open` never counts a
blink. -/
theorem blinkRun_high (thresh high : ℚ) (deb : ℕ) (hhigh : ¬ high < thresh) :
    ∀ (m c b : ℕ),
      blinkRun thresh deb ⟨BState.open', c, b⟩ (List.replicate m high) =
        ⟨BState.open', if m = 0 then c else 0, b⟩ := by
  intro m
  induction m with
  | zero => intro c b; rfl
  | succ j ih =>
    intro c b
    rw [List.replicate_succ]
    show blinkRun thresh deb (blinkStep thresh deb ⟨BState.open', c, b⟩ high)
      (List.replicate j high) = _
    have hstep : blinkStep thresh deb ⟨BState.open', c, b⟩ high =
        ⟨BState.open', 0, b⟩ := by
      simp [blinkStep, hhigh]
    rw [hstep, ih 0 b]
    simp

/-- C2: the cumulative blink counter increments by exactly 1 on each
`Closed → Open` transition (which, by the preserved debounce invariant, only
happens after a debounced closure) and never changes during sustained `Open`
or sustained `Closed` periods; a below-threshold dip shorter than
`debounce_frames` followed by any recovery produces zero blinks; and on the
sequence [0.30, 0.05, 0.05, 0.05, 0.30] with `ear_thresh = 0.15` and
`debounce_frames = 2` the blink count after the sequence equals 1. -/
theorem blink_counter_correct :
    (∀ (thresh : ℚ) (deb : ℕ) (s : BlinkSM) (x : ℚ),
      (blinkStep thresh deb s x).blinks =
        if s.state = BState.closed ∧ ¬ x < thresh then s.blinks + 1 else s.blinks) ∧
    (∀ (thresh : ℚ) (deb : ℕ) (s : BlinkSM) (x : ℚ),
      (s.state = BState.closed → deb ≤ s.streak) →
      (blinkStep thresh deb s x).state = BState.closed →
        deb ≤ (blinkStep thresh deb s x).streak) ∧
    (∀ (thresh low high : ℚ) (deb k m : ℕ), low < thresh → ¬ high < thresh → k < deb →
      (blinkRun thresh deb BlinkSM.init
        (List.replicate k low ++ List.replicate m high)).blinks = 0) ∧
    (blinkRun (15/100) 2 BlinkSM.init
      [30/100, 5/100, 5/100, 5/100, 30/100]).blinks = 1 := by
  refine ⟨blinkStep_blinks, blinkStep_debounced, ?_, ?_⟩
  · intro thresh low high deb k m hlow hhigh hk
    unfold blinkRun
    rw [List.foldl_append]
    show (blinkRun thresh deb
      (blinkRun thresh deb BlinkSM.init (List.replicate k low))
      (List.replicate m high)).blinks = 0
    have h1 : blinkRun thresh deb BlinkSM.init (List.replicate k low) =
        ⟨BState.open', k, 0⟩ := by
      have := blinkRun_short_low thresh low deb hlow k 0 0 (by omega)
      simpa using this
    rw [h1, blinkRun_high thresh high deb hhigh m k 0]
  · norm_num [blinkRun, blinkStep, BlinkSM.init]

/-- C2 witness: the spec's scenario sequence yields exactly one blink, and a
one-frame dip below threshold (shorter than the 2-frame debounce) followed by
recovery yields zero blinks. -/
theorem blink_counter_correct_witness :
    (blinkRun (15/100) 2 BlinkSM.init
      [30/100, 5/100, 5/100, 5/100, 30/100]).blinks = 1 ∧
    (blinkRun (15/100) 2 BlinkSM.init
      (List.replicate 1 (5/100) ++ List.replicate 1 (30/100))).blinks = 0 :=
  ⟨blink_counter_correct.2.2.2,
    blink_counter_correct.2.2.1 (15/100) (5/100) (30/100) 2 1 1
      (by norm_num) (by norm_num) (by norm_num)⟩

end Attention

namespace Attention

/-- The extractor rejects a frame whose landmark list is too short. -/
theorem extract_insufficient (pts : List (ℚ × ℚ)) (h : pts.length < requiredPoints) :
    extractFeatures (some pts) = none := by
  simp only [extractFeatures]
  rw [if_pos h]

/-- The extractor rejects a frame in which either eye's width is near zero. -/
theorem extract_degenerate (pts : List (ℚ × ℚ)) (hlen : requiredPoints ≤ pts.length)
    (hw : hdist (pts.getD 0 (0, 0)) (pts.getD 1 (0, 0)) ≤ widthEps ∨
      hdist (pts.getD 6 (0, 0)) (pts.getD 7 (0, 0)) ≤ widthEps) :
    extractFeatures (some pts) = none := by
  simp only [extractFeatures]
  rw [if_neg (by omega)]
  rw [if_pos (by simp only [Bool.or_eq_true, decide_eq_true_eq]; exact hw)]

/-- Any number of consecutive no-signal frames — absent or malformed alike —
holds the whole pipeline state and emits the last valid score, tagged
low-confidence, on every one of them. -/
theorem pipeRun_noSignal (cfg : PipeConfig) (st : PipeState) :
    ∀ lms : List (Option (List (ℚ × ℚ))),
      (∀ lm ∈ lms, extractFeatures lm = none) →
      pipeRun cfg st lms = (st, lms.map (fun _ => ⟨st.lastScore, true⟩)) := by
  intro lms
  induction lms with
  | nil => intro _; rfl
  | cons lm rest ih =>
    intro h
    have hlm : extractFeatures lm = none := h lm (List.mem_cons_self lm rest)
    have hrest := ih (fun x hx => h x (List.mem_cons_of_mem lm hx))
    simp [pipeRun, pipeStep, hlm, hrest]

/-- C4: on every frame whose landmarks are absent or malformed (insufficient
points, near-zero width of either eye) the FeatureExtractor returns the
no-signal marker instead of raising, and for any sequence of consecutive such
no-signal frames the pipeline holds its state — in particular the Smoother
holds its previous value — marks every such frame low-confidence, and still
emits a score equal to the last valid score; the run never terminates (the
step is total). -/
theorem noSignal_hold :
    (extractFeatures none = none) ∧
    (∀ pts : List (ℚ × ℚ), pts.length < requiredPoints →
      extractFeatures (some pts) = none) ∧
    (∀ pts : List (ℚ × ℚ), requiredPoints ≤ pts.length →
      (hdist (pts.getD 0 (0, 0)) (pts.getD 1 (0, 0)) ≤ widthEps ∨
        hdist (pts.getD 6 (0, 0)) (pts.getD 7 (0, 0)) ≤ widthEps) →
      extractFeatures (some pts) = none) ∧
    (∀ (cfg : PipeConfig) (st : PipeState) (lms : List (Option (List (ℚ × ℚ)))),
      (∀ lm ∈ lms, extractFeatures lm = none) →
      pipeRun cfg st lms = (st, lms.map (fun _ => ⟨st.lastScore, true⟩))) :=
  ⟨rfl, extract_insufficient, extract_degenerate,
    fun cfg st lms h => pipeRun_noSignal cfg st lms h⟩

/-- C4 witness: a one-point landmark list, a 14-point list with a zero-width
left eye, and a 14-point list with an intact left eye but a zero-width right
eye all yield no-signal, and a run of three such frames — one absent, one too
short, one degenerate — leaves a concrete pipeline state unchanged while
emitting three held, low-confidence scores. -/
theorem noSignal_hold_witness :
    extractFeatures (some [((0 : ℚ), (0 : ℚ))]) = none ∧
    extractFeatures (some (List.replicate 14 ((0 : ℚ), (0 : ℚ)))) = none ∧
    extractFeatures (some [((0 : ℚ), (0 : ℚ)), (1, 0), (0, 0), (0, 1), (0, 0), (0, 1),
      (5, 5), (5, 5), (0, 0), (0, 1), (0, 0), (0, 1), (0, 0), (0, 0)]) = none ∧
    pipeRun ⟨1/5, 15/100, 2, 6/10, 4/10, 5/10, 35/100⟩
        ⟨some (1/4), some 0, some 0, BlinkSM.init, 50⟩
        [none, some [], some (List.replicate 14 ((0 : ℚ), (0 : ℚ)))] =
      (⟨some (1/4), some 0, some 0, BlinkSM.init, 50⟩,
        [⟨50, true⟩, ⟨50, true⟩, ⟨50, true⟩]) :=
  ⟨noSignal_hold.2.1 [((0 : ℚ), (0 : ℚ))] (by norm_num [requiredPoints]),
    noSignal_hold.2.2.1 (List.replicate 14 ((0 : ℚ), (0 : ℚ)))
      (by norm_num [requiredPoints])
      (Or.inl (by norm_num [hdist, widthEps])),
    noSignal_hold.2.2.1 [((0 : ℚ), (0 : ℚ)), (1, 0), (0, 0), (0, 1), (0, 0), (0, 1),
      (5, 5), (5, 5), (0, 0), (0, 1), (0, 0), (0, 1), (0, 0), (0, 0)]
      (by norm_num [requiredPoints])
      (Or.inr (by norm_num [hdist, widthEps, List.getD])),
    noSignal_hold.2.2.2 ⟨1/5, 15/100, 2, 6/10, 4/10, 5/10, 35/100⟩
      ⟨some (1/4), some 0, some 0, BlinkSM.init, 50⟩
      [none, some [], some (List.replicate 14 ((0 : ℚ), (0 : ℚ)))]
      (by
        intro lm hlm
        simp only [List.mem_cons, List.not_mem_nil, or_false] at hlm
        rcases hlm with rfl | rfl | rfl
        · rfl
        · rfl
        · exact extract_degenerate (List.replicate 14 ((0 : ℚ), (0 : ℚ)))
            (by norm_num [requiredPoints])
            (Or.inl (by norm_num [hdist, widthEps])))⟩

end Attention

namespace Attention

/-- C5: the "latest record" query is total — on an unknown run id or a run
with zero appended records it returns the explicit empty result `none` rather
than raising — and whenever records exist it returns the most recently
appended record. -/
theorem latestQuery_correct :
    (∀ (st : Store) (rid : String), findLog st rid = none →
      latestQuery st rid = none) ∧
    (∀ (st : Store) (rid : String), findLog st rid = some [] →
      latestQuery st rid = none) ∧
    (∀ (st : Store) (rid : String) (l : List TRec) (r : TRec),
      findLog st rid = some (l ++ [r]) → latestQuery st rid = some r) := by
  refine ⟨fun st rid h => ?_, fun st rid h => ?_, fun st rid l r h => ?_⟩
  · simp [latestQuery, h]
  · simp [latestQuery, h, latestOfLog]
  · simp [latestQuery, h, latestOfLog]

/-- C5 witness: in a concrete store, querying an unknown run id returns the
empty result, querying a registered run with zero records returns the empty
result, and querying a run with two records returns the most recently
appended one. -/
theorem latestQuery_correct_witness :
    latestQuery ⟨[], [("r1", [⟨0, 50, 2, 0, 0⟩, ⟨1, 60, 3, 0, 0⟩]), ("r2", [])]⟩
        "zz" = none ∧
    latestQuery ⟨[], [("r1", [⟨0, 50, 2, 0, 0⟩, ⟨1, 60, 3, 0, 0⟩]), ("r2", [])]⟩
        "r2" = none ∧
    latestQuery ⟨[], [("r1", [⟨0, 50, 2, 0, 0⟩, ⟨1, 60, 3, 0, 0⟩]), ("r2", [])]⟩
        "r1" = some ⟨1, 60, 3, 0, 0⟩ :=
  ⟨latestQuery_correct.1 _ "zz" rfl,
    latestQuery_correct.2.1 _ "r2" rfl,
    latestQuery_correct.2.2 _ "r1" [⟨0, 50, 2, 0, 0⟩] ⟨1, 60, 3, 0, 0⟩ rfl⟩

/-- C7: when the camera/video source cannot be opened or the landmark
detector fails to initialize, the run trigger reports the failure to the
caller and the store — in particular the run registry — is unchanged: the run
never starts and no Run entry for the requested id is added. -/
theorem runTrigger_startup_failure (env : HostEnv) (clock : ℕ) (st : Store)
    (req : RunRequest) (h : env.cameraOk = false ∨ env.detectorOk = false) :
    (∃ msg, (runTrigger env clock st req).1 = TriggerStatus.error msg) ∧
    (runTrigger env clock st req).2 = st := by
  rcases h with h | h
  · simp [runTrigger, h]
  · by_cases hc : env.cameraOk = false
    · simp [runTrigger, hc]
    · simp [runTrigger, hc, h]

/-- C7 witness: with the camera unavailable, triggering a run against a
concrete store leaves the store (and hence its registry) unchanged. -/
theorem runTrigger_startup_failure_witness :
    (runTrigger ⟨false, true⟩ 7 ⟨[⟨"a", "t", "s", false, 0⟩], []⟩
      ⟨"b", "u", "v", true⟩).2 = ⟨[⟨"a", "t", "s", false, 0⟩], []⟩ :=
  (runTrigger_startup_failure ⟨false, true⟩ 7 ⟨[⟨"a", "t", "s", false, 0⟩], []⟩
    ⟨"b", "u", "v", true⟩ (Or.inl rfl)).2

end Attention

namespace Attention

/-- Folding the writer preserves "every logged timestamp is below the clock"
and the strict ordering of logged timestamps. -/
theorem writeFrames_clock_pairwise :
    ∀ (ps : List FramePayload) (w : WriterState),
      (∀ r ∈ w.log, r.ts < w.clock) →
      w.log.Pairwise (fun a b => a.ts < b.ts) →
      (∀ r ∈ (writeFrames w ps).log, r.ts < (writeFrames w ps).clock) ∧
        (writeFrames w ps).log.Pairwise (fun a b => a.ts < b.ts) := by
  intro ps
  induction ps with
  | nil => intro w h1 h2; exact ⟨h1, h2⟩
  | cons p ps ih =>
    intro w h1 h2
    apply ih (writeFrame w p)
    · intro r hr
      simp only [writeFrame, List.mem_append, List.mem_singleton] at hr
      rcases hr with hr | hr
      · exact Nat.lt_succ_of_lt (h1 r hr)
      · subst hr; exact Nat.lt_succ_self _
    · simp only [writeFrame]
      rw [List.pairwise_append]
      refine ⟨h2, List.pairwise_singleton _ _, ?_⟩
      intro a ha b hb
      simp only [List.mem_singleton] at hb
      subst hb
      exact h1 a ha

/-- The writer only ever appends: the prior log is an unchanged prefix. -/
theorem writeFrames_append_only :
    ∀ (ps : List FramePayload) (w : WriterState),
      ∃ t, (writeFrames w ps).log = w.log ++ t := by
  intro ps
  induction ps with
  | nil => intro w; exact ⟨[], by simp [writeFrames]⟩
  | cons p ps ih =>
    intro w
    obtain ⟨t, ht⟩ := ih (writeFrame w p)
    refine ⟨⟨w.clock, p.score, p.ear, p.gazeH, p.gazeV⟩ :: t, ?_⟩
    show (writeFrames (writeFrame w p) ps).log = _
    rw [ht]
    simp [writeFrame]

/-- In a strictly ts-ordered log, the latest (last) record has the maximal
timestamp. -/
theorem pairwise_latest_max :
    ∀ l : List TRec, l.Pairwise (fun a b => a.ts < b.ts) →
      ∀ r, latestOfLog l = some r → ∀ x ∈ l, x.ts ≤ r.ts := by
  intro l
  induction l with
  | nil => intro _ r hr; simp [latestOfLog] at hr
  | cons a l ih =>
    intro hp r hr x hx
    rw [List.pairwise_cons] at hp
    cases l with
    | nil =>
      simp only [latestOfLog, List.getLast?_singleton, Option.some.injEq] at hr
      simp only [List.mem_singleton] at hx
      subst hr; subst hx
      exact le_refl _
    | cons b l' =>
      have hr' : latestOfLog (b :: l') = some r := by
        simpa [latestOfLog, List.getLast?_cons_cons] using hr
      rcases List.mem_cons.mp hx with hxa | hxl
      · subst hxa
        have hrl : r ∈ b :: l' := by
          obtain ⟨hne, heq⟩ := List.mem_getLast?_eq_getLast (Option.mem_def.mpr hr')
          subst heq
          exact List.getLast_mem hne
        exact le_of_lt (hp.1 r hrl)
      · exact ih hp.2 r hr' x hxl

/-- C6: for every run, the sequence of appended timestamps is strictly
increasing; the record sequence is append-only (an earlier log is an
unchanged prefix of every later log, never reordered or mutated); and the
"latest" view returns either nothing or the record whose timestamp is maximal
among everything written so far. -/
theorem telemetry_monotone :
    (∀ ps : List FramePayload,
      ((writeFrames WriterState.init ps).log).Pairwise (fun a b => a.ts < b.ts)) ∧
    (∀ (w : WriterState) (ps : List FramePayload),
      ∃ t, (writeFrames w ps).log = w.log ++ t) ∧
    (∀ (ps : List FramePayload) (r : TRec),
      latestOfLog (writeFrames WriterState.init ps).log = some r →
      ∀ x ∈ (writeFrames WriterState.init ps).log, x.ts ≤ r.ts) := by
  refine ⟨?_, fun w ps => writeFrames_append_only ps w, ?_⟩
  · intro ps
    exact (writeFrames_clock_pairwise ps WriterState.init
      (fun r hr => absurd hr (List.not_mem_nil r)) List.Pairwise.nil).2
  · intro ps r hr
    exact pairwise_latest_max _
      ((writeFrames_clock_pairwise ps WriterState.init
        (fun r hr => absurd hr (List.not_mem_nil r)) List.Pairwise.nil).2) r hr

/-- C6 witness: after logging two concrete frames from a fresh writer, the
latest record is the second one and the first record's timestamp is bounded
by it. -/
theorem telemetry_monotone_witness :
    (⟨0, 50, 2, 0, 0⟩ : TRec).ts ≤ (⟨1, 60, 3, 0, 0⟩ : TRec).ts :=
  telemetry_monotone.2.2 [⟨50, 2, 0, 0⟩, ⟨60, 3, 0, 0⟩] ⟨1, 60, 3, 0, 0⟩ rfl
    ⟨0, 50, 2, 0, 0⟩ (by simp [writeFrames, writeFrame, WriterState.init])

end Attention

namespace Attention

/-- Updating the last slot of a nonempty slot sequence. -/
theorem setLast_append (xs : List RecDraft) (d : RecDraft) (f : RecDraft → RecDraft) :
    setLast (xs ++ [d]) f = xs ++ [f d] := by
  induction xs with
  | nil => rfl
  | cons y ys ih =>
    cases h : ys ++ [d] with
    | nil => exact absurd h (by simp)
    | cons a l =>
      show setLast (y :: (ys ++ [d])) f = y :: (ys ++ [f d])
      rw [h]
      show y :: setLast (a :: l) f = y :: (ys ++ [f d])
      rw [← h, ih]

/-- Writer micro-operation sequences compose. -/
theorem applyOps_append (b : PubLog) (l1 l2 : List WriteOp) :
    applyOps b (l1 ++ l2) = applyOps (applyOps b l1) l2 := by
  simp [applyOps, List.foldl_append]

/-- Fully writing one record appends a complete slot and publishes it. -/
theorem applyOps_recOps (b : PubLog) (r : TRec) :
    applyOps b (recOps r) = ⟨b.slots ++ [RecDraft.ofRec r], b.slots.length + 1⟩ := by
  simp [applyOps, recOps, applyOp, List.foldl, setLast_append, RecDraft.blank, RecDraft.ofRec]

/-- The state of the shared log after a sequence of complete appends: every
appended record is a published, complete slot. -/
theorem applyOps_writerOps :
    ∀ (rs : List TRec) (b : PubLog), b.visible = b.slots.length →
      applyOps b (writerOps rs) =
        ⟨b.slots ++ rs.map RecDraft.ofRec, b.slots.length + rs.length⟩ := by
  intro rs
  induction rs with
  | nil =>
    intro b hv
    cases b with
    | mk slots visible =>
      simp only [writerOps, List.map_nil, List.flatten_nil, applyOps, List.foldl_nil]
      simp_all
  | cons r rs ih =>
    intro b hv
    have hflat : writerOps (r :: rs) = recOps r ++ writerOps rs := by
      simp [writerOps]
    rw [hflat, applyOps_append, applyOps_recOps]
    rw [ih ⟨b.slots ++ [RecDraft.ofRec r], b.slots.length + 1⟩ (by simp)]
    simp [List.append_assoc]
    omega

/-- Reads below the visible index only ever see complete slots that
correspond to fully appended records. -/
theorem pub_read_safe (b : PubLog) (orig big : List TRec) (extra : List RecDraft)
    (hslots : b.slots = orig.map RecDraft.ofRec ++ extra)
    (hvis : b.visible ≤ orig.length)
    (hsub : ∀ o ∈ orig, o ∈ big) :
    (∀ i d, i < b.visible → b.slots[i]? = some d →
      d.isComplete = true ∧ ∃ o ∈ big, d = RecDraft.ofRec o) ∧
    (∀ d, readLatest b = some d →
      d.isComplete = true ∧ ∃ o ∈ big, d = RecDraft.ofRec o) := by
  have key : ∀ i d, i < b.visible → b.slots[i]? = some d →
      d.isComplete = true ∧ ∃ o ∈ big, d = RecDraft.ofRec o := by
    intro i d hi hget
    rw [hslots] at hget
    have hilt : i < (orig.map RecDraft.ofRec).length := by
      rw [List.length_map]
      omega
    rw [List.getElem?_append_left hilt] at hget
    have hmem : d ∈ orig.map RecDraft.ofRec := List.getElem?_mem hget
    obtain ⟨o, ho, rfl⟩ := List.mem_map.mp hmem
    refine ⟨?_, o, hsub o ho, rfl⟩
    simp [RecDraft.ofRec, RecDraft.isComplete]
  refine ⟨key, ?_⟩
  intro d hd
  unfold readLatest at hd
  by_cases hz : b.visible = 0
  · simp [hz] at hd
  · rw [if_neg hz] at hd
    exact key (b.visible - 1) d (by omega) hd

/-- A strict prefix of one record's write sequence (no `publish` yet) leaves
the visible index unchanged and only appends staging data after the existing
slots. -/
theorem applyOps_take_lt (S : PubLog) (r : TRec) (k : ℕ) (hk : k ≤ 6) :
    (applyOps S ((recOps r).take k)).visible = S.visible ∧
    ∃ extra, (applyOps S ((recOps r).take k)).slots = S.slots ++ extra := by
  interval_cases k <;>
    simp only [recOps, List.take, applyOps, List.foldl, applyOp, setLast_append] <;>
    first
      | exact ⟨trivial, [_], rfl⟩
      | exact ⟨trivial, [], (List.append_nil _).symm⟩

/-- C8: under every interleaving of the single writer (any number of fully
appended records followed by any prefix of the next record's
stage/write/publish sequence) with concurrent readers, a reader never
observes a partially written record: every slot below the visible index, and
in particular every "latest" read, is complete and equals a fully written
record — append-then-publish. -/
theorem no_torn_reads (rs : List TRec) (r : TRec) (k : ℕ) (hk : k ≤ 7) :
    (∀ i d,
      i < (applyOps PubLog.init (writerOps rs ++ (recOps r).take k)).visible →
      (applyOps PubLog.init (writerOps rs ++ (recOps r).take k)).slots[i]? = some d →
      d.isComplete = true ∧ ∃ o ∈ rs ++ [r], d = RecDraft.ofRec o) ∧
    (∀ d,
      readLatest (applyOps PubLog.init (writerOps rs ++ (recOps r).take k)) = some d →
      d.isComplete = true ∧ ∃ o ∈ rs ++ [r], d = RecDraft.ofRec o) := by
  have hS : applyOps PubLog.init (writerOps rs) = ⟨rs.map RecDraft.ofRec, rs.length⟩ := by
    have h := applyOps_writerOps rs PubLog.init rfl
    simpa [PubLog.init] using h
  rw [applyOps_append, hS]
  by_cases hk6 : k ≤ 6
  · obtain ⟨hv, extra, hsl⟩ := applyOps_take_lt ⟨rs.map RecDraft.ofRec, rs.length⟩ r k hk6
    exact pub_read_safe _ rs (rs ++ [r]) extra hsl (le_of_eq hv)
      (fun o ho => List.mem_append_left _ ho)
  · have hk7 : k = 7 := by omega
    subst hk7
    have htake : (recOps r).take 7 = recOps r := by simp [recOps]
    rw [htake, applyOps_recOps]
    refine pub_read_safe _ (rs ++ [r]) (rs ++ [r]) [] (by simp) (by simp) (fun o ho => ho)

/-- C8 witness: with one record fully appended and a second record mid-write
(three micro-operations in, unpublished), the concurrent "latest" read
returns a complete slot. -/
theorem no_torn_reads_witness :
    (RecDraft.ofRec ⟨0, 50, 2, 0, 0⟩).isComplete = true :=
  ((no_torn_reads [⟨0, 50, 2, 0, 0⟩] ⟨1, 60, 3, 0, 0⟩ 3 (by norm_num)).2
    (RecDraft.ofRec ⟨0, 50, 2, 0, 0⟩) rfl).1

end Attention

namespace Analysis

/-- Pushing one sample keeps the history at no more than 10 entries. -/
theorem pushHistory_length (prev : List ℚ) (s : ℚ) (h : prev.length ≤ 10) :
    (pushHistory prev s).length ≤ 10 := by
  unfold pushHistory
  by_cases hl : 10 < (prev ++ [s]).length
  · rw [if_pos hl]
    simp only [List.length_drop, List.length_append, List.length_singleton]
    omega
  · rw [if_neg hl]
    simp only [List.length_append, List.length_singleton] at hl ⊢
    omega

/-- One polling tick keeps the history at no more than 10 entries. -/
theorem tick_length (resp : Option LatestResp) (st : DashState)
    (h : st.history.length ≤ 10) : (tick resp st).history.length ≤ 10 := by
  cases resp with
  | none => exact h
  | some r =>
    cases r with
    | error m => exact h
    | ok data =>
      cases data with
      | none => exact h
      | some d =>
        simp only [tick]
        by_cases hts : st.lastTs = some d.ts
        · rw [if_pos hts]
          exact h
        · rw [if_neg hts]
          exact pushHistory_length _ _ h

/-- The whole polling loop keeps the history bounded. -/
theorem tickRun_length (resps : List (Option LatestResp)) :
    ∀ st : DashState, st.history.length ≤ 10 →
      (tickRun resps st).history.length ≤ 10 := by
  induction resps with
  | nil => intro st h; exact h
  | cons r rs ih => intro st h; exact ih (tick r st) (tick_length r st h)

/-- C9: after every polling tick from mount, the dashboard's score history
holds at most 10 scores; a fetched record whose timestamp equals the
previously seen timestamp is never appended (the tick is a no-op); and the
displayed average is the arithmetic mean of the history, 0 when the history
is empty. -/
theorem dashboard_history_invariant :
    (∀ resps : List (Option LatestResp),
      (tickRun resps DashState.init).history.length ≤ 10) ∧
    (∀ (st : DashState) (d : LatestRow), st.lastTs = some d.ts →
      tick (some (LatestResp.ok (some d))) st = st) ∧
    avgScore [] = 0 ∧
    (∀ h : List ℚ, h ≠ [] → avgScore h * (h.length : ℚ) = h.sum) := by
  refine ⟨fun resps => tickRun_length resps DashState.init (by simp [DashState.init]),
    ?_, rfl, ?_⟩
  · intro st d hts
    simp [tick, hts]
  · intro h hne
    have hlz : h.length ≠ 0 := by
      simpa [List.length_eq_zero] using hne
    unfold avgScore
    rw [if_neg hlz]
    exact div_mul_cancel₀ _ (Nat.cast_ne_zero.mpr hlz)

/-- C9 witness: a repeated timestamp leaves a concrete dashboard state
untouched, and the mean of the concrete history [40, 60] times its length
recovers its sum. -/
theorem dashboard_history_invariant_witness :
    tick (some (LatestResp.ok (some ⟨"t1", "55", "", "", ""⟩))) ⟨[50], some "t1"⟩ =
      ⟨[50], some "t1"⟩ ∧
    avgScore [40, 60] * (([40, 60] : List ℚ).length : ℚ) = ([40, 60] : List ℚ).sum :=
  ⟨dashboard_history_invariant.2.1 ⟨[50], some "t1"⟩ ⟨"t1", "55", "", "", ""⟩ rfl,
    dashboard_history_invariant.2.2.2 [40, 60] (by simp)⟩

/-- C10: the dashboard's numeric parser `n` is total and always yields a
(finite, by construction rational) number: `null`, `undefined`, the empty
string, the strings "null" and "nan" (case-insensitively, after trimming),
the NaN number, and non-numeric strings all fall back to the supplied
default, and in general every input either parses to a finite number that is
returned or falls back to the default. -/
theorem parser_total :
    (∀ d : ℚ, n JSVal.jnull d = d) ∧
    (∀ d : ℚ, n JSVal.undef d = d) ∧
    (∀ d : ℚ, n (JSVal.str "") d = d) ∧
    (∀ d : ℚ, n (JSVal.str "null") d = d) ∧
    (∀ d : ℚ, n (JSVal.str " NaN ") d = d) ∧
    (∀ d : ℚ, n (JSVal.num JNum.nan) d = d) ∧
    (∀ d : ℚ, n (JSVal.str "abc") d = d) ∧
    (∀ (v : JSVal) (d : ℚ),
      (∃ q : ℚ, parseFloatJS (jsToString v) = JNum.fin q ∧ n v d = q) ∨ n v d = d) := by
  refine ⟨fun d => rfl, fun d => rfl, fun d => rfl, fun d => rfl, fun d => rfl,
    fun d => rfl, fun d => rfl, ?_⟩
  intro v d
  cases v with
  | jnull => exact Or.inr rfl
  | undef => exact Or.inr rfl
  | num x =>
    simp only [n]
    split
    · exact Or.inr rfl
    · split
      · rename_i p heq
        exact Or.inl ⟨p, heq, rfl⟩
      · exact Or.inr rfl
  | str s =>
    simp only [n]
    split
    · exact Or.inr rfl
    · split
      · rename_i p heq
        exact Or.inl ⟨p, heq, rfl⟩
      · exact Or.inr rfl
  | bool b =>
    simp only [n]
    split
    · exact Or.inr rfl
    · split
      · rename_i p heq
        exact Or.inl ⟨p, heq, rfl⟩
      · exact Or.inr rfl

end Analysis
